import Mathlib

/-!
Shallow embedding of the `depinject` provider-descriptor extractor
(`depinject/provider_desc.go`) and the ordered-map / string utilities
(`depinject/internal/util/util.go`) of the cosmos-sdk repository,
together with theorems settling the specification claims about them.
-/

set_option linter.unusedVariables false

/-- A Go runtime type, as observed through `reflect`. The embedding
distinguishes the interface type `error` (the source's `errType`) from
every other type, which is identified by its name. -/
inductive GoType where
  | error : GoType
  | base : String → GoType
deriving DecidableEq, Repr

/-- The source's `var errType = reflect.TypeOf((*error)(nil)).Elem()`. -/
def errType : GoType := GoType.error

/-- A `reflect.Value`: its dynamic type, whether `IsZero()` holds (for an
`error`-typed result, `IsZero` is true exactly when the error is nil), and
a payload distinguishing concrete values. -/
structure Value where
  typ : GoType
  isZero : Bool
  payload : Nat
deriving DecidableEq, Repr

/-- Default used for out-of-range slice indexing in the model (Go would
panic there; the spot is unreachable for well-typed calls). -/
def zeroValue : Value := { typ := GoType.error, isZero := true, payload := 0 }

/-- Modelled from the spec: the `Location` type and `LocationFromPC`
(depinject/location.go is not under src/). The spec uses a location only
as "a source location for diagnostics"; we model it as an opaque token
determined by the function's code pointer. -/
structure Location where
  pc : Nat
deriving DecidableEq, Repr

/-- Modelled from the spec: `LocationFromPC` resolves a code pointer to
its diagnostic source location, a pure lookup. -/
def LocationFromPC (pc : Nat) : Location := { pc := pc }

/-- A Go function value: its signature as seen by `reflect` (parameter
types, result types, variadic flag), its code pointer, and its calling
semantics `call` (modelling `reflect.Value.Call`, which returns one
`reflect.Value` per declared result). -/
structure GoFunc where
  inTypes : List GoType
  outTypes : List GoType
  variadic : Bool
  pc : Nat
  call : List Value → List Value

/-- The source's `ProviderInput` struct. -/
structure ProviderInput where
  type : GoType
  Optional : Bool := false
  startStructType : Option GoType := none
  structFieldName : String := ""
deriving DecidableEq, Repr

/-- The source's `ProviderOutput` struct. -/
structure ProviderOutput where
  type : GoType
  startStructType : Option GoType := none
  structFieldName : String := ""
deriving DecidableEq, Repr

/-- The source's `ProviderDescriptor` struct. `Fn` returns either the
produced values or a Go error (itself a `Value`). -/
structure ProviderDescriptor where
  Inputs : List ProviderInput
  Outputs : List ProviderOutput
  Fn : List Value → Except Value (List Value)
  Location : Location
  hasError : Bool

instance : Inhabited ProviderDescriptor :=
  ⟨{ Inputs := [], Outputs := [], Fn := fun _ => Except.ok [],
     Location := { pc := 0 }, hasError := false }⟩

/-- A value passed to the extractor through the `interface\x7b\x7d`
parameter: a function value, a hand-built `ProviderDescriptor`, or a
value of any other (non-function) dynamic type. -/
inductive GoValue where
  | ofFunc : GoFunc → GoValue
  | ofDescriptor : ProviderDescriptor → GoValue
  | other : GoType → GoValue

/-- The errors `doExtractProviderDescriptor` can return, one constructor
per `errors.Errorf` site in the source. -/
inductive ExtractError where
  | notAFunction : GoType → ExtractError
  | variadicUnsupported : Location → ExtractError
  | misplacedErrorOutput : Location → ExtractError
deriving DecidableEq, Repr

/-- The output-scanning loop of `doExtractProviderDescriptor`
(provider_desc.go lines 88-101): walk the result types with index `i`,
reject an `error`-typed result that is not last, record the index of a
trailing `error` result in `errIdx` (initially -1), and append every
non-error result to `out`. -/
def processOutputs (loc : Location) (numOut : Nat) :
    List GoType → Nat → Int → List ProviderOutput →
    Except ExtractError (List ProviderOutput × Int)
  | [], _, errIdx, out => Except.ok (out, errIdx)
  | t :: rest, i, errIdx, out =>
    if t = errType then
      if i ≠ numOut - 1 then
        Except.error (ExtractError.misplacedErrorOutput loc)
      else
        processOutputs loc numOut rest (i + 1) (Int.ofNat i) out
    else
      processOutputs loc numOut rest (i + 1) errIdx (out ++ [{ type := t }])

/-- `doExtractProviderDescriptor` (provider_desc.go lines 67-121): reject
non-function values and variadic functions, build one `ProviderInput` per
parameter, scan the results with `processOutputs`, and wrap the callable
in a uniform `Fn` that short-circuits on a non-nil trailing error. -/
def doExtractProviderDescriptor (ctr : GoValue) : Except ExtractError ProviderDescriptor :=
  match ctr with
  | GoValue.ofFunc f =>
    if f.variadic then
      Except.error (ExtractError.variadicUnsupported (LocationFromPC f.pc))
    else
      match processOutputs (LocationFromPC f.pc) f.outTypes.length f.outTypes 0 (-1) [] with
      | Except.error e => Except.error e
      | Except.ok (out, errIdx) =>
        Except.ok {
          Inputs := f.inTypes.map (fun t => { type := t }),
          Outputs := out,
          Fn := fun values =>
            let res := f.call values
            if 0 ≤ errIdx then
              let err := res.getD errIdx.toNat zeroValue
              if !err.isZero then Except.error err
              else Except.ok (res.take errIdx.toNat)
            else Except.ok res,
          Location := LocationFromPC f.pc,
          hasError := decide (0 ≤ errIdx) }
  | GoValue.ofDescriptor _ =>
      Except.error (ExtractError.notAFunction (GoType.base "depinject.ProviderDescriptor"))
  | GoValue.other t => Except.error (ExtractError.notAFunction t)

/-- Modelled from the spec: `expandStructArgsProvider`
(depinject/expand.go is not under src/). Per spec section 4.2 the
expander replaces recognized aggregate marker types by one slot per
field and leaves every other input and output unchanged; this
embedding's `GoType` carries no aggregate marker types, so expansion
leaves the descriptor as is and always succeeds. -/
def expandStructArgsProvider (provider : ProviderDescriptor) :
    Except ExtractError ProviderDescriptor :=
  Except.ok provider

/-- `ExtractProviderDescriptor` (provider_desc.go lines 54-65): a value
whose dynamic type is already `ProviderDescriptor` skips
`doExtractProviderDescriptor` entirely and goes straight to
struct-argument expansion. -/
def ExtractProviderDescriptor (provider : GoValue) : Except ExtractError ProviderDescriptor :=
  match provider with
  | GoValue.ofDescriptor rctr => expandStructArgsProvider rctr
  | v =>
    match doExtractProviderDescriptor v with
    | Except.error err => Except.error err
    | Except.ok rctr => expandStructArgsProvider rctr

/-- Observation helper: whether extraction succeeded. -/
def extractionOk : Except ExtractError ProviderDescriptor → Bool
  | Except.ok _ => true
  | Except.error _ => false

/-- Observation helper: whether a `GoValue` has function dynamic type
(`reflect.Kind() == reflect.Func`). -/
def isFuncValue : GoValue → Bool
  | GoValue.ofFunc _ => true
  | _ => false

/-- The descriptor produced by a successful extraction (default on the
error path, which callers rule out). -/
def extractedOrDefault (v : GoValue) : ProviderDescriptor :=
  match doExtractProviderDescriptor v with
  | Except.ok d => d
  | Except.error _ => default

/-- Equality of extraction results on everything except the (opaque,
function-valued) `Fn` field. -/
def sameShape : Except ExtractError ProviderDescriptor →
    Except ExtractError ProviderDescriptor → Prop
  | Except.ok d₁, Except.ok d₂ =>
      d₁.Inputs = d₂.Inputs ∧ d₁.Outputs = d₂.Outputs ∧
      d₁.Location = d₂.Location ∧ d₁.hasError = d₂.hasError
  | Except.error e₁, Except.error e₂ => e₁ = e₂
  | _, _ => False

/-!
The map and string utilities of `depinject/internal/util/util.go`.
A Go map is represented by its association list in the map's internal
(unspecified) iteration order; keys are unique in a real map.
-/

/-- `maps.Keys`: the keys of the map in its internal iteration order. -/
def mapKeys {K V : Type} (m : List (K × V)) : List K :=
  m.map Prod.fst

/-- `OrderedMapKeys` (util.go lines 24-28): `maps.Keys` followed by
`slices.Sort`; sorting is modelled by insertion sort, which produces the
ascending reordering `slices.Sort` produces. -/
def OrderedMapKeys {K V : Type} [LinearOrder K] (m : List (K × V)) : List K :=
  List.insertionSort (fun a b => a ≤ b) (mapKeys m)

/-- Go map indexing `m[k]`: the value associated with `k`, or the zero
value of the value type when `k` is absent. -/
def mapGet {K V : Type} [DecidableEq K] [Inhabited V] (m : List (K × V)) (k : K) : V :=
  match m.find? (fun p => decide (p.1 = k)) with
  | some p => p.2
  | none => default

/-- The loop body of `IterateMapOrdered` (util.go lines 13-21): walk the
given keys, call `forEach` on each key and its mapped value, and return
the first non-nil error, or nil when every call succeeds. -/
def iterKeys {K V E : Type} [DecidableEq K] [Inhabited V]
    (m : List (K × V)) (forEach : K → V → Option E) : List K → Option E
  | [] => none
  | k :: ks =>
    match forEach k (mapGet m k) with
    | some err => some err
    | none => iterKeys m forEach ks

/-- `IterateMapOrdered` (util.go lines 13-21): iterate over the map with
keys sorted in ascending order, calling `forEach` for each key-value
pair as long as `forEach` does not return an error. -/
def IterateMapOrdered {K V E : Type} [LinearOrder K] [DecidableEq K] [Inhabited V]
    (m : List (K × V)) (forEach : K → V → Option E) : Option E :=
  iterKeys m forEach (OrderedMapKeys m)

/-- Modelled from the spec: Go's `unicode.ToLower` (external standard
library code, not part of this repository), restricted to the ASCII
simple case mapping: A-Z maps to a-z, every other rune is unchanged. -/
def unicodeToLower (r : Nat) : Nat :=
  if 65 ≤ r ∧ r ≤ 90 then r + 32 else r

/-- Modelled from the spec: Go's `unicode.ToUpper` (external standard
library code, not part of this repository), restricted to the ASCII
simple case mapping: a-z maps to A-Z, every other rune is unchanged. -/
def unicodeToUpper (r : Nat) : Nat :=
  if 97 ≤ r ∧ r ≤ 122 then r - 32 else r

/-- `StringFirstLower` (util.go lines 30-38): the empty string is
returned unchanged; otherwise the first rune is lowered and the rest are
kept. Strings are modelled as their rune sequences. -/
def StringFirstLower (s : List Nat) : List Nat :=
  match s with
  | [] => s
  | r :: rest => unicodeToLower r :: rest

/-- `StringFirstUpper` (util.go lines 40-48): the empty string is
returned unchanged; otherwise the first rune is uppered and the rest are
kept. -/
def StringFirstUpper (s : List Nat) : List Nat :=
  match s with
  | [] => s
  | r :: rest => unicodeToUpper r :: rest

/-!
Concrete sample values used by the witness theorems.
-/

/-- A sample two-parameter function returning a value and a trailing
error; called with two arguments it succeeds, called otherwise it
returns a non-nil error. -/
def sampleFn : GoFunc :=
  { inTypes := [GoType.base "int", GoType.base "string"],
    outTypes := [GoType.base "bool", GoType.error],
    variadic := false,
    pc := 7,
    call := fun values =>
      if values.length = 2 then
        [{ typ := GoType.base "bool", isZero := false, payload := 1 },
         { typ := GoType.error, isZero := true, payload := 0 }]
      else
        [{ typ := GoType.base "bool", isZero := true, payload := 0 },
         { typ := GoType.error, isZero := false, payload := 9 }] }

/-- The descriptor extracted from `sampleFn`. -/
def sampleDesc : ProviderDescriptor := extractedOrDefault (GoValue.ofFunc sampleFn)

/-- A sample variadic function. -/
def variadicFn : GoFunc :=
  { inTypes := [GoType.base "int"],
    outTypes := [GoType.base "string"],
    variadic := true,
    pc := 3,
    call := fun _ => [] }

/-- A sample function with an `error` result in non-last position. -/
def misplacedFn : GoFunc :=
  { inTypes := [],
    outTypes := [GoType.error, GoType.base "int"],
    variadic := false,
    pc := 5,
    call := fun _ => [] }

/-- A sample map, given in an internal order that is not the key
order. -/
def sampleMap : List (Nat × Nat) := [(2, 5), (1, 6)]

/-- A sample iteration body that fails on key 1. -/
def sampleForEach : Nat → Nat → Option Nat :=
  fun k v => if k = 1 then some v else none

/-!
Lemmas about the output-scanning loop.
-/

theorem processOutputs_misplaced (loc : Location) (numOut : Nat) :
    ∀ (l : List GoType) (i : Nat) (errIdx : Int) (acc : List ProviderOutput)
      (p : Nat) (hp : p < l.length),
      l.get ⟨p, hp⟩ = GoType.error → i + p + 1 < numOut →
      processOutputs loc numOut l i errIdx acc =
        Except.error (ExtractError.misplacedErrorOutput loc) := by
  intro l
  induction l with
  | nil =>
    intro i errIdx acc p hp
    exact absurd hp (by simp)
  | cons t rest ih =>
    intro i errIdx acc p hp hget hlt
    by_cases ht : t = errType
    · have hi : i ≠ numOut - 1 := by omega
      simp [processOutputs, ht, hi]
    · cases p with
      | zero =>
        simp [List.get] at hget
        exact absurd hget ht
      | succ q =>
        have hq : q < rest.length := by simpa using hp
        have hget' : rest.get ⟨q, hq⟩ = GoType.error := by simpa using hget
        simp only [processOutputs, ht, if_false, ite_false]
        exact ih (i + 1) errIdx (acc ++ [{ type := t }]) q hq hget' (by omega)

theorem processOutputs_ok (loc : Location) (numOut : Nat) :
    ∀ (l : List GoType) (i : Nat) (errIdx : Int) (acc : List ProviderOutput)
      (out : List ProviderOutput) (e : Int),
      i + l.length = numOut →
      processOutputs loc numOut l i errIdx acc = Except.ok (out, e) →
      out = acc ++ (l.filter (fun t => !decide (t = errType))).map (fun t => { type := t }) ∧
      (GoType.error ∈ l → l.getLast? = some GoType.error ∧ e = Int.ofNat (numOut - 1)) ∧
      (GoType.error ∉ l → e = errIdx) := by
  intro l
  induction l with
  | nil =>
    intro i errIdx acc out e hlen hok
    simp [processOutputs] at hok
    refine ⟨by simp [hok.1.symm], by simp, fun _ => hok.2.symm⟩
  | cons t rest ih =>
    intro i errIdx acc out e hlen hok
    by_cases ht : t = errType
    · by_cases hi : i ≠ numOut - 1
      · simp [processOutputs, ht, hi] at hok
      · simp only [processOutputs, ht, if_true, hi, ite_false, if_false] at hok
        push_neg at hi
        have hnum : 1 ≤ numOut := by simp at hlen; omega
        have hrest : rest.length = 0 := by simp at hlen; omega
        have hrestnil : rest = [] := List.eq_nil_of_length_eq_zero hrest
        subst hrestnil
        simp [processOutputs] at hok
        have hterr : t = GoType.error := ht
        refine ⟨by simp [hok.1.symm, hterr, errType], fun _ => ⟨by simp [hterr], ?_⟩,
          fun hmem => ?_⟩
        · rw [← hok.2]
          simp [hi]
        · exact absurd (by simp [hterr, errType]) hmem
    · simp only [processOutputs, ht, if_false, ite_false] at hok
      have hlen' : (i + 1) + rest.length = numOut := by simp at hlen; omega
      obtain ⟨hA, hB, hC⟩ := ih (i + 1) errIdx (acc ++ [{ type := t }]) out e hlen' hok
      have hterr : t ≠ GoType.error := ht
      refine ⟨?_, fun hmem => ?_, fun hmem => ?_⟩
      · rw [hA]
        simp [List.filter_cons, hterr, errType]
      · have hmem' : GoType.error ∈ rest := by
          cases List.mem_cons.mp hmem with
          | inl h => exact absurd h.symm hterr
          | inr h => exact h
        obtain ⟨hlast, he⟩ := hB hmem'
        refine ⟨?_, he⟩
        have hne : rest ≠ [] := List.ne_nil_of_mem hmem'
        cases rest with
        | nil => exact absurd rfl hne
        | cons b rs => rw [List.getLast?_cons_cons]; exact hlast
      · have hmem' : GoType.error ∉ rest := fun h => hmem (List.mem_cons_of_mem t h)
        exact hC hmem'

theorem doExtract_ofFunc_ok_inv (f : GoFunc) (d : ProviderDescriptor)
    (h : doExtractProviderDescriptor (GoValue.ofFunc f) = Except.ok d) :
    f.variadic = false ∧
    ∃ out e,
      processOutputs (LocationFromPC f.pc) f.outTypes.length f.outTypes 0 (-1) [] =
        Except.ok (out, e) ∧
      d.Inputs = f.inTypes.map (fun t => { type := t }) ∧
      d.Outputs = out ∧
      d.Location = LocationFromPC f.pc ∧
      d.hasError = decide (0 ≤ e) ∧
      d.Fn = fun values =>
        let res := f.call values
        if 0 ≤ e then
          let err := res.getD e.toNat zeroValue
          if !err.isZero then Except.error err
          else Except.ok (res.take e.toNat)
        else Except.ok res := by
  by_cases hv : f.variadic
  · simp [doExtractProviderDescriptor, hv] at h
  · cases hp : processOutputs (LocationFromPC f.pc) f.outTypes.length f.outTypes 0 (-1) [] with
    | error e => simp [doExtractProviderDescriptor, hv, hp] at h
    | ok pr =>
      obtain ⟨out, e⟩ := pr
      simp only [doExtractProviderDescriptor, hv, Bool.false_eq_true, if_false, ite_false,
        hp] at h
      have h2 := Except.ok.inj h
      subst h2
      refine ⟨by simpa using hv, out, e, rfl, rfl, rfl, rfl, rfl, rfl⟩

/-- C4: for every variadic function passed as a provider, extraction
fails with the variadic-unsupported error and no descriptor is
produced. -/
theorem C4_variadic_rejected (f : GoFunc) (h : f.variadic = true) :
    doExtractProviderDescriptor (GoValue.ofFunc f) =
      Except.error (ExtractError.variadicUnsupported (LocationFromPC f.pc)) := by
  simp [doExtractProviderDescriptor, h]

theorem C4_witness :
    variadicFn.variadic = true ∧
    doExtractProviderDescriptor (GoValue.ofFunc variadicFn) =
      Except.error (ExtractError.variadicUnsupported (LocationFromPC variadicFn.pc)) :=
  ⟨rfl, C4_variadic_rejected variadicFn rfl⟩

/-- C5: for every value whose dynamic type is not a function type,
extraction fails with the not-a-function error and no descriptor is
produced. -/
theorem C5_non_function_rejected (v : GoValue) (h : isFuncValue v = false) :
    ∃ t, doExtractProviderDescriptor v = Except.error (ExtractError.notAFunction t) := by
  cases v with
  | ofFunc f => simp [isFuncValue] at h
  | ofDescriptor d => exact ⟨GoType.base "depinject.ProviderDescriptor", rfl⟩
  | other t => exact ⟨t, rfl⟩

theorem C5_witness :
    isFuncValue (GoValue.other (GoType.base "int")) = false ∧
    ∃ t, doExtractProviderDescriptor (GoValue.other (GoType.base "int")) =
      Except.error (ExtractError.notAFunction t) :=
  ⟨rfl, C5_non_function_rejected (GoValue.other (GoType.base "int")) rfl⟩

/-- C1: a callable of function type with an `error`-typed result in any
position other than the last fails extraction: no descriptor is
produced, and (unless the variadic check fires first) the error is the
misplaced-error-output error. -/
theorem C1_misplaced_error_rejected (f : GoFunc) (i : Nat)
    (hi : i + 1 < f.outTypes.length)
    (he : f.outTypes.get ⟨i, Nat.lt_of_succ_lt hi⟩ = GoType.error) :
    extractionOk (doExtractProviderDescriptor (GoValue.ofFunc f)) = false ∧
    (f.variadic = false →
      doExtractProviderDescriptor (GoValue.ofFunc f) =
        Except.error (ExtractError.misplacedErrorOutput (LocationFromPC f.pc))) := by
  have hmis := processOutputs_misplaced (LocationFromPC f.pc) f.outTypes.length
    f.outTypes 0 (-1) [] i (Nat.lt_of_succ_lt hi) he (by omega)
  by_cases hv : f.variadic
  · constructor
    · simp [doExtractProviderDescriptor, hv, extractionOk]
    · intro hv2
      exact absurd (hv2.symm.trans hv) Bool.false_ne_true
  · constructor
    · simp [doExtractProviderDescriptor, hv, hmis, extractionOk]
    · intro _
      simp [doExtractProviderDescriptor, hv, hmis]

theorem C1_witness :
    0 + 1 < misplacedFn.outTypes.length ∧
    misplacedFn.outTypes.get ⟨0, by decide⟩ = GoType.error ∧
    (extractionOk (doExtractProviderDescriptor (GoValue.ofFunc misplacedFn)) = false ∧
     (misplacedFn.variadic = false →
       doExtractProviderDescriptor (GoValue.ofFunc misplacedFn) =
         Except.error (ExtractError.misplacedErrorOutput (LocationFromPC misplacedFn.pc)))) :=
  ⟨by decide, by decide, C1_misplaced_error_rejected misplacedFn 0 (by decide) (by decide)⟩

/-- C9: a value whose dynamic type is already `ProviderDescriptor`
bypasses all signature validation: it is handed straight to
struct-argument expansion, and extraction of such a hand-built
descriptor never fails. -/
theorem C9_descriptor_bypasses_validation (d : ProviderDescriptor) :
    ExtractProviderDescriptor (GoValue.ofDescriptor d) = expandStructArgsProvider d ∧
    extractionOk (ExtractProviderDescriptor (GoValue.ofDescriptor d)) = true :=
  ⟨rfl, rfl⟩

/-- C8: extraction is pure: it is deterministic, and it never invokes
the callable, so its result (up to the opaque `Fn` closure) does not
depend on the callable's calling semantics, only on its signature. -/
theorem C8_extraction_pure :
    (∀ v : GoValue,
      sameShape (doExtractProviderDescriptor v) (doExtractProviderDescriptor v)) ∧
    (∀ (f : GoFunc) (call2 : List Value → List Value),
      sameShape (doExtractProviderDescriptor (GoValue.ofFunc f))
        (doExtractProviderDescriptor (GoValue.ofFunc { f with call := call2 }))) := by
  constructor
  · intro v
    cases hx : doExtractProviderDescriptor v with
    | ok d => simp [sameShape]
    | error e => simp [sameShape]
  · intro f call2
    by_cases hv : f.variadic
    · simp [doExtractProviderDescriptor, hv, sameShape]
    · cases hp : processOutputs (LocationFromPC f.pc) f.outTypes.length f.outTypes 0 (-1) [] with
      | error e => simp [doExtractProviderDescriptor, hv, hp, sameShape]
      | ok pr =>
        obtain ⟨out, e⟩ := pr
        simp [doExtractProviderDescriptor, hv, hp, sameShape]

/-- C6: for every accepted function, the descriptor's input list has one
entry per parameter in declaration order, the i-th entry carrying the
i-th parameter type, with every entry non-optional. -/
theorem C6_inputs_one_per_parameter (f : GoFunc) (d : ProviderDescriptor)
    (h : doExtractProviderDescriptor (GoValue.ofFunc f) = Except.ok d) :
    d.Inputs.length = f.inTypes.length ∧
    ∀ i, i < f.inTypes.length →
      (d.Inputs.getD i { type := errType }).type = f.inTypes.getD i errType ∧
      (d.Inputs.getD i { type := errType }).Optional = false := by
  obtain ⟨hv, out, e, hp, hIn, hOut, hLoc, hHE, hFn⟩ := doExtract_ofFunc_ok_inv f d h
  rw [hIn]
  refine ⟨List.length_map _ _, fun i hi => ?_⟩
  have hmap : (f.inTypes.map
      (fun t => ({ type := t } : ProviderInput))).getD i { type := errType } =
      { type := f.inTypes.getD i errType } := by
    rw [List.getD_eq_getElem?_getD, List.getD_eq_getElem?_getD, List.getElem?_map,
      List.getElem?_eq_getElem hi]
    simp
  rw [hmap]
  exact ⟨rfl, rfl⟩

theorem C6_witness :
    doExtractProviderDescriptor (GoValue.ofFunc sampleFn) = Except.ok sampleDesc ∧
    (sampleDesc.Inputs.length = sampleFn.inTypes.length ∧
     ∀ i, i < sampleFn.inTypes.length →
       (sampleDesc.Inputs.getD i { type := errType }).type = sampleFn.inTypes.getD i errType ∧
       (sampleDesc.Inputs.getD i { type := errType }).Optional = false) :=
  ⟨rfl, C6_inputs_one_per_parameter sampleFn sampleDesc rfl⟩

/-- C3: for every accepted callable, the descriptor's outputs are
exactly the non-error result types in declaration order, and the
trailing error result is recorded only in the hasError flag. -/
theorem C3_outputs_exclude_trailing_error (f : GoFunc) (d : ProviderDescriptor)
    (h : doExtractProviderDescriptor (GoValue.ofFunc f) = Except.ok d) :
    d.Outputs.map (fun o => o.type) = f.outTypes.filter (fun t => !decide (t = errType)) ∧
    (d.hasError = true ↔ f.outTypes.getLast? = some GoType.error) := by
  obtain ⟨hv, out, e, hp, hIn, hOut, hLoc, hHE, hFn⟩ := doExtract_ofFunc_ok_inv f d h
  obtain ⟨hA, hB, hC⟩ := processOutputs_ok (LocationFromPC f.pc) f.outTypes.length
    f.outTypes 0 (-1) [] out e (by simp) hp
  constructor
  · rw [hOut, hA]
    simp only [List.nil_append, List.map_map]
    have hcomp : ((fun o => o.type) ∘ fun t => ({ type := t } : ProviderOutput)) = id := rfl
    rw [hcomp, List.map_id]
  · constructor
    · intro hET
      rw [hHE] at hET
      have he0 : (0 : Int) ≤ e := of_decide_eq_true hET
      by_cases hmem : GoType.error ∈ f.outTypes
      · exact (hB hmem).1
      · have := hC hmem
        omega
    · intro hlast
      have hmem := List.mem_of_getLast?_eq_some hlast
      rw [hHE, (hB hmem).2]
      simp

theorem C3_witness :
    doExtractProviderDescriptor (GoValue.ofFunc sampleFn) = Except.ok sampleDesc ∧
    (sampleDesc.Outputs.map (fun o => o.type) =
       sampleFn.outTypes.filter (fun t => !decide (t = errType)) ∧
     (sampleDesc.hasError = true ↔ sampleFn.outTypes.getLast? = some GoType.error)) :=
  ⟨rfl, C3_outputs_exclude_trailing_error sampleFn sampleDesc rfl⟩

/-- C2: for every extracted provider whose last result is an error, the
stored Fn applied to well-typed arguments short-circuits: it returns the
underlying call's last result as a non-nil error (and no values) exactly
when that result is non-nil, and otherwise returns exactly the results
preceding the error result, in order. -/
theorem C2_fn_short_circuits (f : GoFunc) (d : ProviderDescriptor)
    (h : doExtractProviderDescriptor (GoValue.ofFunc f) = Except.ok d)
    (he : d.hasError = true)
    (values : List Value)
    (hlen : (f.call values).length = f.outTypes.length) :
    ∃ ev, (f.call values).getLast? = some ev ∧
      (ev.isZero = false → d.Fn values = Except.error ev) ∧
      (ev.isZero = true → d.Fn values = Except.ok ((f.call values).dropLast)) := by
  obtain ⟨hv, out, e, hp, hIn, hOut, hLoc, hHE, hFn⟩ := doExtract_ofFunc_ok_inv f d h
  obtain ⟨hA, hB, hC⟩ := processOutputs_ok (LocationFromPC f.pc) f.outTypes.length
    f.outTypes 0 (-1) [] out e (by simp) hp
  rw [hHE] at he
  have he0 : (0 : Int) ≤ e := of_decide_eq_true he
  have hmem : GoType.error ∈ f.outTypes := by
    by_contra hmem
    have := hC hmem
    omega
  have heq : e = Int.ofNat (f.outTypes.length - 1) := (hB hmem).2
  have hpos : 0 < f.outTypes.length := List.length_pos.mpr (List.ne_nil_of_mem hmem)
  have hne : f.call values ≠ [] := by
    intro h0
    rw [h0] at hlen
    simp at hlen
    omega
  have hlast := List.getLast?_eq_getLast (f.call values) hne
  have hidx : e.toNat = (f.call values).length - 1 := by
    rw [heq, hlen]
    exact Int.toNat_ofNat _
  have hgetD : (f.call values).getD e.toNat zeroValue = (f.call values).getLast hne := by
    rw [List.getD_eq_getElem?_getD, hidx, ← List.getLast?_eq_getElem?, hlast]
    rfl
  have hFnval : d.Fn values =
      if !((f.call values).getLast hne).isZero
      then Except.error ((f.call values).getLast hne)
      else Except.ok (List.take e.toNat (f.call values)) := by
    rw [hFn]
    show (if 0 ≤ e then
            if !((f.call values).getD e.toNat zeroValue).isZero
            then Except.error ((f.call values).getD e.toNat zeroValue)
            else Except.ok (List.take e.toNat (f.call values))
          else Except.ok (f.call values)) = _
    rw [if_pos he0, hgetD]
  refine ⟨(f.call values).getLast hne, hlast, ?_, ?_⟩
  · intro hz
    rw [hFnval, hz]
    simp
  · intro hz
    rw [hFnval, hz]
    simp only [Bool.not_true, Bool.false_eq_true, if_false, ite_false]
    rw [List.dropLast_eq_take, hidx]

theorem C2_witness :
    doExtractProviderDescriptor (GoValue.ofFunc sampleFn) = Except.ok sampleDesc ∧
    sampleDesc.hasError = true ∧
    (sampleFn.call []).length = sampleFn.outTypes.length ∧
    ∃ ev, (sampleFn.call []).getLast? = some ev ∧
      (ev.isZero = false → sampleDesc.Fn [] = Except.error ev) ∧
      (ev.isZero = true → sampleDesc.Fn [] = Except.ok ((sampleFn.call []).dropLast)) :=
  ⟨rfl, rfl, rfl, C2_fn_short_circuits sampleFn sampleDesc rfl rfl [] rfl⟩

/-!
Lemmas about the ordered map utilities.
-/

theorem iterKeys_eq_findSome {K V E : Type} [DecidableEq K] [Inhabited V]
    (m : List (K × V)) (forEach : K → V → Option E) :
    ∀ ks : List K, iterKeys m forEach ks = ks.findSome? (fun k => forEach k (mapGet m k)) := by
  intro ks
  induction ks with
  | nil => rfl
  | cons k ks ih =>
    rw [List.findSome?_cons]
    cases hfk : forEach k (mapGet m k) with
    | some err => simp [iterKeys, hfk]
    | none => simp [iterKeys, hfk, ih]

theorem find?_key_of_mem {K V : Type} [DecidableEq K]
    (m : List (K × V)) (k : K) (v : V)
    (hnd : (mapKeys m).Nodup) (hm : (k, v) ∈ m) :
    m.find? (fun p => decide (p.1 = k)) = some (k, v) := by
  induction m with
  | nil => simp at hm
  | cons a rest ih =>
    have hmk : mapKeys (a :: rest) = a.1 :: mapKeys rest := rfl
    obtain ⟨hnotin, hndrest⟩ := List.nodup_cons.mp (hmk ▸ hnd)
    by_cases ha : a.1 = k
    · rw [List.find?_cons_of_pos rest (by simp [ha])]
      cases List.mem_cons.mp hm with
      | inl h => exact congrArg some h.symm
      | inr h =>
        exfalso
        apply hnotin
        have hmemk := List.mem_map_of_mem Prod.fst h
        rw [ha]
        exact hmemk
    · rw [List.find?_cons_of_neg rest (by simp [ha])]
      cases List.mem_cons.mp hm with
      | inl h =>
        exfalso
        exact ha (by rw [← h])
      | inr h => exact ih hndrest h

theorem mapGet_perm {K V : Type} [DecidableEq K] [Inhabited V]
    (m m2 : List (K × V)) (hp : List.Perm m m2) (hnd : (mapKeys m).Nodup) (k : K) :
    mapGet m k = mapGet m2 k := by
  have hnd2 : (mapKeys m2).Nodup := (hp.map Prod.fst).nodup hnd
  by_cases hex : ∃ v, (k, v) ∈ m
  · obtain ⟨v, hv⟩ := hex
    have h1 := find?_key_of_mem m k v hnd hv
    have h2 := find?_key_of_mem m2 k v hnd2 (hp.mem_iff.mp hv)
    simp only [mapGet, h1, h2]
  · push_neg at hex
    have h1 : m.find? (fun p => decide (p.1 = k)) = none := by
      rw [List.find?_eq_none]
      intro x hx
      simp only [decide_eq_true_eq]
      intro hxk
      exact hex x.2 (by rwa [show (k, x.2) = x by rw [← hxk]])
    have h2 : m2.find? (fun p => decide (p.1 = k)) = none := by
      rw [List.find?_eq_none]
      intro x hx
      simp only [decide_eq_true_eq]
      intro hxk
      exact hex x.2 (by
        rw [show (k, x.2) = x by rw [← hxk]]
        exact hp.mem_iff.mpr hx)
    simp only [mapGet, h1, h2]

/-- C7: `OrderedMapKeys` returns exactly the map's key set in ascending
order, `IterateMapOrdered` returns the first error produced by
`forEach` along that ascending key order (nil when all calls succeed),
and both are independent of the map's internal iteration order. -/
theorem C7_ordered_iteration {K V E : Type} [LinearOrder K] [DecidableEq K] [Inhabited V]
    (m : List (K × V)) (forEach : K → V → Option E)
    (hnd : (mapKeys m).Nodup) :
    List.Perm (OrderedMapKeys m) (mapKeys m) ∧
    List.Sorted (fun a b => a < b) (OrderedMapKeys m) ∧
    IterateMapOrdered m forEach =
      (OrderedMapKeys m).findSome? (fun k => forEach k (mapGet m k)) ∧
    ∀ m2 : List (K × V), List.Perm m m2 →
      OrderedMapKeys m = OrderedMapKeys m2 ∧
      IterateMapOrdered m forEach = IterateMapOrdered m2 forEach := by
  have hperm : List.Perm (OrderedMapKeys m) (mapKeys m) :=
    List.perm_insertionSort _ _
  have hsortedLe : List.Sorted (fun a b => a ≤ b) (OrderedMapKeys m) :=
    List.sorted_insertionSort _ _
  have hndK : (OrderedMapKeys m).Nodup := hperm.symm.nodup hnd
  refine ⟨hperm, List.Sorted.lt_of_le hsortedLe hndK, ?_, ?_⟩
  · exact iterKeys_eq_findSome m forEach (OrderedMapKeys m)
  · intro m2 hp2
    have hperm2 : List.Perm (OrderedMapKeys m2) (mapKeys m2) :=
      List.perm_insertionSort _ _
    have hkeysperm : List.Perm (mapKeys m) (mapKeys m2) := hp2.map Prod.fst
    have hOMKeq : OrderedMapKeys m = OrderedMapKeys m2 :=
      List.eq_of_perm_of_sorted (hperm.trans (hkeysperm.trans hperm2.symm))
        hsortedLe (List.sorted_insertionSort _ _)
    refine ⟨hOMKeq, ?_⟩
    have hg : (fun k => forEach k (mapGet m k)) = (fun k => forEach k (mapGet m2 k)) :=
      funext fun k => by rw [mapGet_perm m m2 hp2 hnd k]
    calc IterateMapOrdered m forEach
        = (OrderedMapKeys m).findSome? (fun k => forEach k (mapGet m k)) :=
          iterKeys_eq_findSome m forEach (OrderedMapKeys m)
      _ = (OrderedMapKeys m2).findSome? (fun k => forEach k (mapGet m2 k)) := by
          rw [hOMKeq, hg]
      _ = IterateMapOrdered m2 forEach :=
          (iterKeys_eq_findSome m2 forEach (OrderedMapKeys m2)).symm

theorem C7_witness :
    (mapKeys sampleMap).Nodup ∧
    (List.Perm (OrderedMapKeys sampleMap) (mapKeys sampleMap) ∧
     List.Sorted (fun a b => a < b) (OrderedMapKeys sampleMap) ∧
     IterateMapOrdered sampleMap sampleForEach =
       (OrderedMapKeys sampleMap).findSome?
         (fun k => sampleForEach k (mapGet sampleMap k)) ∧
     ∀ m2 : List (Nat × Nat), List.Perm sampleMap m2 →
       OrderedMapKeys sampleMap = OrderedMapKeys m2 ∧
       IterateMapOrdered sampleMap sampleForEach = IterateMapOrdered m2 sampleForEach) :=
  ⟨by decide, C7_ordered_iteration sampleMap sampleForEach (by decide)⟩

/-- C10: both string case helpers return the empty string unchanged,
leave every rune after the first unchanged, and are idempotent. -/
theorem C10_string_first_case_ops :
    (StringFirstLower [] = [] ∧ StringFirstUpper [] = []) ∧
    (∀ s : List Nat, (StringFirstLower s).drop 1 = s.drop 1 ∧
      (StringFirstUpper s).drop 1 = s.drop 1) ∧
    (∀ s : List Nat, StringFirstLower (StringFirstLower s) = StringFirstLower s) ∧
    (∀ s : List Nat, StringFirstUpper (StringFirstUpper s) = StringFirstUpper s) := by
  refine ⟨⟨rfl, rfl⟩, fun s => ?_, fun s => ?_, fun s => ?_⟩
  · cases s <;> simp [StringFirstLower, StringFirstUpper]
  · cases s with
    | nil => rfl
    | cons r rest =>
      simp only [StringFirstLower]
      congr 1
      unfold unicodeToLower
      split_ifs <;> omega
  · cases s with
    | nil => rfl
    | cons r rest =>
      simp only [StringFirstUpper]
      congr 1
      unfold unicodeToUpper
      split_ifs <;> omega
